import Mathlib

/-!
Verification of the SRT subtitle importer/exporter add-on
(`src/__init__.py`) against its natural-language specification.

The Python source is shallow-embedded here:
* fractional-second time values are modelled as exact rationals (`ℚ`);
  the source computes with IEEE doubles, whose rounding noise is outside
  the scope of this embedding,
* Python `int()` applied to a real value is truncation toward zero
  (`pyInt`),
* Python strings are modelled as `String` / `List Char`; the regular
  expression and the numeric-literal parsers are modelled on ASCII data,
  which is the alphabet the SRT grammar uses,
* the Blender host (scene, sequence editor, file system) is abstracted:
  strips are plain records, the channel-resolution probe is an injected
  function, and file output is the ordered list of `file.write` calls.
-/

-- Restore kernel reducibility of the rational-number operations so that
-- concrete runs of the embedding can be checked by `decide`.
attribute [local semireducible] Rat.add Rat.mul Rat.inv Rat.sub Rat.ofScientific

deriving instance DecidableEq for Except

/-! ## Python numeric primitives -/

/-- Python `int()` applied to a real value: truncation toward zero. -/
def pyInt (q : ℚ) : ℤ := if 0 ≤ q then ⌊q⌋ else ⌈q⌉

/-- Python `%` on reals with a positive right operand:
`a % b = a - b * (a // b)` where `//` is floor division. -/
def fmod (a b : ℚ) : ℚ := a - b * ⌊a / b⌋

/-! ## Characters and decimal digits -/

/-- The character for a single decimal digit `d < 10`. -/
def digitChar (d : ℕ) : Char := Char.ofNat (48 + d)

/-- Numeric value of a decimal digit character. -/
def digitVal (c : Char) : ℕ := c.toNat - 48

/-- Decimal digit list (most significant first) of a natural number,
with explicit fuel so that the definition is structural. -/
def natDigitsAux : ℕ → ℕ → List Char
  | 0, _ => []
  | fuel + 1, n =>
      if n < 10 then [digitChar n]
      else natDigitsAux fuel (n / 10) ++ [digitChar (n % 10)]

/-- Decimal digit list (most significant first) of a natural number. -/
def natDigits (n : ℕ) : List Char := natDigitsAux (n + 1) n

/-- Decimal rendering of a natural number, as used by Python `str`/f-strings. -/
def natToString (n : ℕ) : String := String.mk (natDigits n)

/-- Python `f"{n:02d}"`: zero-pad to width 2. -/
def pad2 (n : ℕ) : List Char := if n < 10 then '0' :: natDigits n else natDigits n

/-- Python `f"{n:03d}"`: zero-pad to width 3. -/
def pad3 (n : ℕ) : List Char :=
  if n < 10 then '0' :: '0' :: natDigits n
  else if n < 100 then '0' :: natDigits n
  else natDigits n

/-- Value of a list of decimal digit characters, most significant first
(the accumulator fold used by positional notation). -/
def natOfDigits (l : List Char) : ℕ := l.foldl (fun a c => 10 * a + digitVal c) 0

/-- Python `str.split(sep)` for a one-character separator: splits at every
occurrence, keeping empty pieces.  The result is always nonempty. -/
def splitOnChar (c : Char) : List Char → List (List Char)
  | [] => [[]]
  | x :: xs =>
      if x = c then [] :: splitOnChar c xs
      else
        match splitOnChar c xs with
        | [] => [[x]]
        | y :: ys => (x :: y) :: ys

/-- Python `int(s)` restricted to the digit-string case (the only form the
timecode fields can take; other accepted spellings such as surrounding
whitespace, an explicit sign or underscores never reach this call). -/
def pyParseNat (l : List Char) : Option ℕ :=
  if l ≠ [] ∧ l.all Char.isDigit then some (natOfDigits l) else none

/-- Python `float(s)` restricted to plain decimal literals
`digits [. digits]` with at least one digit (the only form the seconds
field can take after the `','` → `'.'` substitution). -/
def pyParseFloat (l : List Char) : Option ℚ :=
  match splitOnChar '.' l with
  | [a] => if a ≠ [] ∧ a.all Char.isDigit then some (natOfDigits a) else none
  | [a, b] =>
      if (a ≠ [] ∨ b ≠ []) ∧ a.all Char.isDigit ∧ b.all Char.isDigit then
        some ((natOfDigits a : ℚ) + (natOfDigits b : ℚ) / 10 ^ b.length)
      else none
  | _ => none

/-! ## `parse_srt_time` (src lines 15–21) and `format_srt_time` (lines 23–37) -/

/-- The dash-free branch of `parse_srt_time`:
`hours, minutes, seconds = time_str.replace(',', '.').split(':')` followed by
`int(hours) * 3600 + int(minutes) * 60 + float(seconds)`; `none` models the
`ValueError` raised when the destructuring or a numeric conversion fails. -/
def parseTimeCore (l : List Char) : Option ℚ :=
  match splitOnChar ':' (l.map fun c => if c = ',' then '.' else c) with
  | [hs, ms, ss] => do
      let hours ← pyParseNat hs
      let minutes ← pyParseNat ms
      let seconds ← pyParseFloat ss
      some ((hours : ℚ) * 3600 + (minutes : ℚ) * 60 + seconds)
  | _ => none

/-- `parse_srt_time` (src lines 15–21).  If `'-' in time_str`, the source
recurses on `time_str.replace('-', '')` and negates; the recursive argument
contains no `'-'`, so that call takes the dash-free branch, which is the
unfolding written here. -/
def parse_srt_time (time_str : String) : Option ℚ :=
  if '-' ∈ time_str.data then
    (parseTimeCore (time_str.data.filter fun c => c ≠ '-')).map fun x => -x
  else
    parseTimeCore time_str.data

/-- `format_srt_time` (src lines 23–37).  All Python `int(...)` arguments are
nonnegative here, so truncation coincides with `⌊·⌋`; `abs_seconds % b` is
`fmod abs_seconds b`, and `int(abs_seconds // 3600)` is `⌊abs_seconds/3600⌋`. -/
def format_srt_time (seconds : ℚ) : String :=
  let sign : List Char := if seconds < 0 then ['-'] else []
  let abs_seconds := |seconds|
  let hours := (⌊abs_seconds / 3600⌋).toNat
  let minutes := (⌊fmod abs_seconds 3600 / 60⌋).toNat
  let secs := (⌊fmod abs_seconds 60⌋).toNat
  let milliseconds := (⌊(abs_seconds - (⌊abs_seconds⌋ : ℚ)) * 1000⌋).toNat
  String.mk (sign ++ pad2 hours ++ ':' :: pad2 minutes ++ ':' :: pad2 secs
      ++ ',' :: pad3 milliseconds)

/-- The canonical timecode string with the given sign and field values: what
`format_srt_time` emits, and the canonical fragment of the spec grammar
`[-]HH:MM:SS,mmm`. -/
def mkTimecode (neg : Bool) (h m s ms : ℕ) : String :=
  String.mk ((if neg then ['-'] else []) ++ pad2 h ++ ':' :: pad2 m ++ ':' :: pad2 s
      ++ ',' :: pad3 ms)

/-- The signed fractional-second value denoted by timecode fields. -/
def timeValue (neg : Bool) (h m s ms : ℕ) : ℚ :=
  (if neg then -1 else 1) * ((h : ℚ) * 3600 + (m : ℚ) * 60 + (s : ℚ) + (ms : ℚ) / 1000)

/-! ## The cue-block regular expression (src line 142)

`(\d+)\n(-?\d{2}:\d{2}:\d{2},\d{3}) --> (-?\d{2}:\d{2}:\d{2},\d{3})\n([\s\S]*?)(?=\n+\d+|\n*$)`

`re.findall` scans left to right, attempts a match at every position, and
resumes after the end of each successful match.  The scanner below mirrors
that behaviour: greedy `\d+` (backtracking cannot help, since fewer digits
leave a digit where `\n` is required), the fixed-shape timecodes, and the
lazy text group, which captures the shortest prefix after which the
lookahead `\n+\d+|\n*$` holds. -/

/-- One cue block as captured by the four regex groups. -/
structure RawCue where
  index : String
  start_time : String
  end_time : String
  text : String
deriving DecidableEq

/-- Greedy `\d+`-style prefix: maximal run of decimal digits, and the rest. -/
def takeDigits : List Char → List Char × List Char
  | [] => ([], [])
  | c :: cs =>
      if c.isDigit then
        let (d, r) := takeDigits cs
        (c :: d, r)
      else ([], c :: cs)

/-- Match a fixed sequence of single-character classes. -/
def matchShape : List (Char → Bool) → List Char → Option (List Char × List Char)
  | [], l => some ([], l)
  | _ :: _, [] => none
  | p :: ps, c :: cs =>
      if p c then (matchShape ps cs).map fun m => (c :: m.1, m.2) else none

/-- The shape `\d{2}:\d{2}:\d{2},\d{3}`. -/
def timeShape : List (Char → Bool) :=
  [Char.isDigit, Char.isDigit, fun c => c = ':', Char.isDigit, Char.isDigit,
   fun c => c = ':', Char.isDigit, Char.isDigit, fun c => c = ',',
   Char.isDigit, Char.isDigit, Char.isDigit]

/-- Match `-?\d{2}:\d{2}:\d{2},\d{3}`, returning the matched text and rest. -/
def matchTimecode (l : List Char) : Option (List Char × List Char) :=
  match l with
  | '-' :: rest => (matchShape timeShape rest).map fun m => ('-' :: m.1, m.2)
  | _ => matchShape timeShape l

/-- Match a literal character sequence. -/
def matchLit : List Char → List Char → Option (List Char)
  | [], l => some l
  | _ :: _, [] => none
  | c :: cs, x :: xs => if x = c then matchLit cs xs else none

/-- The lookahead `(?=\n+\d+|\n*$)`: from this position, either one or more
newlines followed by a digit, or nothing but newlines up to the end of the
input (`$` also matches just before a final newline, which `\n*` covers). -/
def lookaheadOk (l : List Char) : Bool :=
  match l with
  | [] => true
  | '\n' :: rest =>
      match rest.dropWhile (fun c => c = '\n') with
      | [] => true
      | c :: _ => c.isDigit
  | _ => false

/-- The lazy group `([\s\S]*?)` before the lookahead: the shortest split
`l = text ++ rest` with `lookaheadOk rest`.  Total because the empty rest
satisfies the lookahead. -/
def scanText (l : List Char) : List Char × List Char :=
  if lookaheadOk l then ([], l)
  else
    match l with
    | [] => ([], [])
    | c :: cs =>
        let (t, r) := scanText cs
        (c :: t, r)

/-- Attempt the whole block pattern at the head of `l`; on success return the
four captured groups and the remainder of the input after the match (the
lookahead consumes nothing). -/
def matchBlock (l : List Char) : Option (RawCue × List Char) :=
  let (idx, l1) := takeDigits l
  if idx = [] then none
  else
    match l1 with
    | '\n' :: l2 =>
        match matchTimecode l2 with
        | none => none
        | some (t1, l3) =>
            match matchLit [' ', '-', '-', '>', ' '] l3 with
            | none => none
            | some l4 =>
                match matchTimecode l4 with
                | none => none
                | some (t2, l5) =>
                    match l5 with
                    | '\n' :: l6 =>
                        let (tx, rest) := scanText l6
                        some (⟨String.mk idx, String.mk t1, String.mk t2,
                               String.mk tx⟩, rest)
                    | _ => none
    | _ => none

/-- The `re.findall` scan loop.  Fuel bounds the number of steps; every step
either consumes one character (failed attempt) or a whole block of at least
19 characters (successful match), so fuel equal to the input length never
runs out. -/
def findallAux : ℕ → List Char → List RawCue
  | 0, _ => []
  | _ + 1, [] => []
  | fuel + 1, c :: cs =>
      match matchBlock (c :: cs) with
      | some (r, rest) => r :: findallAux fuel rest
      | none => findallAux fuel cs

/-- `re.findall(pattern, content)` (src line 143). -/
def srt_findall (content : String) : List RawCue :=
  findallAux content.data.length content.data

/-! ## Python string helpers used by the import loop -/

/-- Python whitespace characters for `str.strip()` (the ASCII set; the SRT
inputs modelled here contain no non-ASCII whitespace). -/
def isPyWhitespace (c : Char) : Bool :=
  c = ' ' ∨ c = '\t' ∨ c = '\n' ∨ c = '\r' ∨ c = Char.ofNat 11 ∨ c = Char.ofNat 12

/-- Python `str.strip()`: remove leading and trailing whitespace. -/
def pyStrip (s : String) : String :=
  String.mk (((s.data.dropWhile isPyWhitespace).reverse.dropWhile isPyWhitespace).reverse)

/-- Python `str.replace(pat, rep)` on character lists, with fuel; replaces all
non-overlapping occurrences left to right (the pattern used by the source,
`"{index}"`, is nonempty, so fuel equal to the input length suffices). -/
def replaceAux (pat rep : List Char) : ℕ → List Char → List Char
  | 0, l => l
  | _ + 1, [] => []
  | fuel + 1, c :: cs =>
      if pat.isPrefixOf (c :: cs) then
        rep ++ replaceAux pat rep fuel ((c :: cs).drop pat.length)
      else c :: replaceAux pat rep fuel cs

/-- Python `str.replace`. -/
def pyReplace (s pat rep : String) : String :=
  String.mk (replaceAux pat.data rep.data s.data.length s.data)

/-! ## Import placement engine (`SEQUENCER_OT_ImportSRT.execute`, src lines 122–284) -/

/-- The inline frame computation at src lines 178–179 and 213–214:
`int(self.start_frame + seconds * fps)` — Python truncation toward zero
applied to the whole sum. -/
def frameCalc (start_frame : ℤ) (seconds fps : ℚ) : ℤ :=
  pyInt ((start_frame : ℚ) + seconds * fps)

/-- A text strip as created by the import loop.  Only the attributes the
loop computes are modelled; the presentation attributes (font, shadow,
blend mode) are constants of the plain path or copied by host `duplicate`
in the template path, identical in name/text/placement either way. -/
structure PlacedStrip where
  name : String
  text : String
  channel : ℤ
  frame_start : ℤ
  frame_final_end : ℤ
deriving DecidableEq

/-- The body of the per-cue loop (src lines 207–272): parse both timecodes,
convert to frames, clamp a non-positive duration to 1, strip the text, and
substitute `{index}` in the name template.  `none` models an exception
escaping to the operator's `except` handler. -/
def placeCue (start_frame : ℤ) (fps : ℚ) (channel : ℤ) (template_name : String)
    (c : RawCue) : Option PlacedStrip := do
  let start_sec ← parse_srt_time c.start_time
  let end_sec ← parse_srt_time c.end_time
  let fs := frameCalc start_frame start_sec fps
  let fe := frameCalc start_frame end_sec fps
  let duration := if fe - fs ≤ 0 then 1 else fe - fs
  some ⟨pyReplace template_name "{index}" c.index, pyStrip c.text, channel,
        fs, fs + duration⟩

/-- The per-cue loop over all matches, aborting at the first failure. -/
def placeAll (start_frame : ℤ) (fps : ℚ) (channel : ℤ) (template_name : String) :
    List RawCue → Option (List PlacedStrip)
  | [] => some []
  | c :: cs => do
      let p ← placeCue start_frame fps channel template_name c
      let ps ← placeAll start_frame fps channel template_name cs
      some (p :: ps)

/-- Outcome of one import invocation: the span of the throwaway probe strip
(src lines 172–204), the channel the host resolved the probe to, and the
strips created by the loop. -/
structure ImportResult where
  probe_start : ℤ
  probe_end : ℤ
  channel : ℤ
  strips : List PlacedStrip
deriving DecidableEq

/-- `SEQUENCER_OT_ImportSRT.execute` (src lines 122–284), with the host kept
abstract: `resolveChannel requested first last` is Blender's resolution of
the probe strip spanning `[first, last]` on the requested channel to an
actually available channel.  The two error strings are the operator's
`ERROR` reports (the second stands for the generic `except` handler, which
no input reaching this point can trigger).  No host mutation happens before
the empty-match check. -/
def importSRT (content : String) (start_frame : ℤ) (fps : ℚ) (subtitle_channel : ℤ)
    (template_name : String) (resolveChannel : ℤ → ℤ → ℤ → ℤ) :
    Except String ImportResult :=
  match srt_findall content with
  | [] => .error "No subtitles found in the SRT file"
  | first :: rest =>
      match parse_srt_time first.start_time,
            parse_srt_time ((first :: rest).getLast (List.cons_ne_nil first rest)).end_time with
      | some fs, some ls =>
          let first_frame := frameCalc start_frame fs fps
          let last_frame := frameCalc start_frame ls fps
          let duration := if last_frame - first_frame ≤ 0 then 1 else last_frame - first_frame
          let channel := resolveChannel subtitle_channel first_frame (first_frame + duration)
          match placeAll start_frame fps channel template_name (first :: rest) with
          | some strips => .ok ⟨first_frame, first_frame + duration, channel, strips⟩
          | none => .error "Error importing SRT"
      | _, _ => .error "Error importing SRT"

/-! ## Export serializer (`SEQUENCER_OT_ExportSRT.execute`, src lines 343–400) -/

/-- A host strip as seen by the export operator. -/
structure SelStrip where
  stype : String
  channel : ℤ
  frame_start : ℤ
  frame_final_end : ℤ
  text : String
deriving DecidableEq

/-- Insertion step of a stable sort on `frame_start` (a new element goes
before the first element whose key is `≥` its own, hence after all earlier
elements with an equal key). -/
def insertStrip (s : SelStrip) : List SelStrip → List SelStrip
  | [] => [s]
  | t :: ts =>
      if s.frame_start ≤ t.frame_start then s :: t :: ts
      else t :: insertStrip s ts

/-- `selected_strips.sort(key=lambda strip: strip.frame_start)` (src line 375):
Python's sort is stable; any stable sort computes the same list, so insertion
sort is used here. -/
def sortStrips : List SelStrip → List SelStrip
  | [] => []
  | s :: ss => insertStrip s (sortStrips ss)

/-- Python `enumerate(l, i)`. -/
def enumFrom : ℕ → List SelStrip → List (ℕ × SelStrip)
  | _, [] => []
  | i, x :: xs => (i, x) :: enumFrom (i + 1) xs

/-- The three `file.write` calls for one cue (src lines 380–391). -/
def cueWrites (fps : ℚ) (start_frame : ℤ) (i : ℕ) (strip : SelStrip) : List String :=
  let start_sec := ((strip.frame_start - start_frame : ℤ) : ℚ) / fps
  let end_sec := ((strip.frame_final_end - start_frame : ℤ) : ℚ) / fps
  [natToString i ++ "\n",
   format_srt_time start_sec ++ " --> " ++ format_srt_time end_sec ++ "\n",
   strip.text ++ "\n\n"]

/-- `SEQUENCER_OT_ExportSRT.execute` (src lines 343–400): filter the selection
to text strips, validate non-emptiness and the single-channel invariant, sort
by start frame, and emit the ordered list of `file.write` calls.  An `error`
result is reported before the output file is opened, so nothing is written in
those cases. -/
def exportSRT (selected_sequences : List SelStrip) (fps : ℚ) (start_frame : ℤ) :
    Except String (List String) :=
  let selected_strips := selected_sequences.filter fun s => s.stype = "TEXT"
  match selected_strips with
  | [] => .error "No text strips selected"
  | first :: _ =>
      if selected_strips.any fun s => s.channel ≠ first.channel then
        .error "All selected strips must be on the same channel to avoid conflicts"
      else
        .ok ((enumFrom 1 (sortStrips selected_strips)).flatMap
              fun p => cueWrites fps start_frame p.1 p.2)

/-- Concatenation of a sequence of write calls: the resulting file text. -/
def concatAll : List String → String
  | [] => ""
  | s :: ss => s ++ concatAll ss

/-- The file contents after the first `k` of the export's write calls: the
export loop writes straight to the opened file, so if the operation fails
before the `k`-th call the file keeps exactly this prefix. -/
def writtenSoFar (ws : List String) (k : ℕ) : String :=
  concatAll (ws.take k)

/-- The canonical timecode character list, written right-nested. -/
def tcChars (h m s ms : ℕ) : List Char :=
  pad2 h ++ ':' :: (pad2 m ++ ':' :: (pad2 s ++ ',' :: pad3 ms))

/-- Modelled from the spec: the claimed timecode grammar `[-]HH:MM:SS,mmm`
(HH at least two digits, any number accepted; MM, SS exactly two digits;
mmm exactly three digits), as a decidable validity check used only to state
claim C2.  The program itself has no such standalone validator. -/
def specValidTimecode (str : String) : Bool :=
  let l := match str.data with
           | '-' :: rest => rest
           | l => l
  let p := takeDigits l
  decide (2 ≤ p.1.length) &&
    (match matchShape [fun c => c = ':', Char.isDigit, Char.isDigit,
                       fun c => c = ':', Char.isDigit, Char.isDigit,
                       fun c => c = ',', Char.isDigit, Char.isDigit, Char.isDigit] p.2 with
     | some (_, []) => true
     | _ => false)

/-! ## Characterization lemmas for the import pipeline -/

/-- Unfolding of a successful `placeCue`:
the created strip's fields in terms of the parsed times. -/
theorem placeCue_some {sf ch : ℤ} {fps : ℚ} {tn : String} {c : RawCue} {p : PlacedStrip}
    (h : placeCue sf fps ch tn c = some p) :
    ∃ s e : ℚ, parse_srt_time c.start_time = some s ∧
      parse_srt_time c.end_time = some e ∧
      p = ⟨pyReplace tn "{index}" c.index, pyStrip c.text, ch, frameCalc sf s fps,
           frameCalc sf s fps +
             (if frameCalc sf e fps - frameCalc sf s fps ≤ 0 then 1
              else frameCalc sf e fps - frameCalc sf s fps)⟩ := by
  unfold placeCue at h
  cases hs : parse_srt_time c.start_time with
  | none => rw [hs] at h; exact absurd h (by simp [Option.bind])
  | some s =>
    cases he : parse_srt_time c.end_time with
    | none => rw [hs, he] at h; exact absurd h (by simp [Option.bind])
    | some e =>
      rw [hs, he] at h
      simp only [Option.bind_eq_bind, Option.some_bind, Option.some_inj] at h
      exact ⟨s, e, rfl, rfl, h.symm⟩

/-- A successful `placeAll` places every cue, in order. -/
theorem placeAll_some {sf ch : ℤ} {fps : ℚ} {tn : String} :
    ∀ {l : List RawCue} {res : List PlacedStrip},
      placeAll sf fps ch tn l = some res →
      res.length = l.length ∧
      ∀ i (h1 : i < l.length) (h2 : i < res.length),
        placeCue sf fps ch tn (l.get ⟨i, h1⟩) = some (res.get ⟨i, h2⟩) := by
  intro l
  induction l with
  | nil =>
    intro res h
    simp only [placeAll, Option.some_inj] at h
    subst h
    exact ⟨rfl, fun i h1 _ => absurd h1 (Nat.not_lt_zero i)⟩
  | cons c cs ih =>
    intro res h
    unfold placeAll at h
    cases hp : placeCue sf fps ch tn c with
    | none => rw [hp] at h; exact absurd h (by simp [Option.bind])
    | some p =>
      rw [hp] at h
      cases hr : placeAll sf fps ch tn cs with
      | none => rw [hr] at h; exact absurd h (by simp [Option.bind])
      | some ps =>
        rw [hr] at h
        simp only [Option.bind_eq_bind, Option.some_bind, Option.some_inj] at h
        subst h
        obtain ⟨hlen, hget⟩ := ih hr
        refine ⟨by simp [hlen], fun i h1 h2 => ?_⟩
        cases i with
        | zero => simpa using hp
        | succ j =>
          have h1' : j < cs.length := by simpa using h1
          have h2' : j < ps.length := by simpa using h2
          simpa using hget j h1' h2'

/-- Unfolding of a successful import: the probe span, the resolved channel
and the created strips in terms of the matched cue blocks. -/
theorem importSRT_ok {content : String} {sf ch : ℤ} {fps : ℚ} {tn : String}
    {resolve : ℤ → ℤ → ℤ → ℤ} {r : ImportResult}
    (h : importSRT content sf fps ch tn resolve = .ok r) :
    ∃ (first : RawCue) (rest : List RawCue) (fs ls : ℚ),
      srt_findall content = first :: rest ∧
      parse_srt_time first.start_time = some fs ∧
      parse_srt_time ((first :: rest).getLast (List.cons_ne_nil first rest)).end_time
        = some ls ∧
      r.probe_start = frameCalc sf fs fps ∧
      r.probe_end = r.probe_start +
        (if frameCalc sf ls fps - frameCalc sf fs fps ≤ 0 then 1
         else frameCalc sf ls fps - frameCalc sf fs fps) ∧
      r.channel = resolve ch r.probe_start r.probe_end ∧
      placeAll sf fps r.channel tn (first :: rest) = some r.strips := by
  unfold importSRT at h
  cases hm : srt_findall content with
  | nil => rw [hm] at h; exact absurd h (by simp)
  | cons first rest =>
    rw [hm] at h
    dsimp only at h
    cases hfs : parse_srt_time first.start_time with
    | none => rw [hfs] at h; exact absurd h (by simp)
    | some fs =>
      cases hls : parse_srt_time ((first :: rest).getLast (List.cons_ne_nil first rest)).end_time with
      | none => rw [hfs, hls] at h; exact absurd h (by simp)
      | some ls =>
        rw [hfs, hls] at h
        dsimp only at h
        cases hpa : placeAll sf fps
            (resolve ch (frameCalc sf fs fps)
              (frameCalc sf fs fps +
                (if frameCalc sf ls fps - frameCalc sf fs fps ≤ 0 then 1
                 else frameCalc sf ls fps - frameCalc sf fs fps)))
            tn (first :: rest) with
        | none => rw [hpa] at h; exact absurd h (by simp)
        | some strips =>
          rw [hpa] at h
          simp only [Except.ok.injEq] at h
          subst h
          exact ⟨first, rest, fs, ls, rfl, hfs, hls, rfl, rfl, rfl, hpa⟩

/-- Truncation commutes with adding an integer exactly when the sum does not
cross zero: `int(a + x) = a + int(x)` for integer `a` whenever `x` and
`a + x` are both nonnegative or both nonpositive. -/
theorem pyInt_int_add {a : ℤ} {x : ℚ}
    (h : (0 ≤ x ∧ 0 ≤ (a : ℚ) + x) ∨ (x ≤ 0 ∧ (a : ℚ) + x ≤ 0)) :
    pyInt ((a : ℚ) + x) = a + pyInt x := by
  unfold pyInt
  rcases h with ⟨hx, hax⟩ | ⟨hx, hax⟩
  · rw [if_pos hax, if_pos hx, Int.floor_int_add]
  · by_cases h0 : (0 : ℚ) ≤ (a : ℚ) + x
    · have hax0 : (a : ℚ) + x = 0 := le_antisymm hax h0
      have hxa : x = ((-a : ℤ) : ℚ) := by push_cast; linarith
      rw [if_pos h0, hax0, hxa]
      by_cases h1 : (0 : ℚ) ≤ ((-a : ℤ) : ℚ)
      · rw [if_pos h1, Int.floor_intCast, Int.floor_zero]; omega
      · rw [if_neg h1, Int.ceil_intCast, Int.floor_zero]; omega
    · rw [if_neg h0]
      by_cases h1 : (0 : ℚ) ≤ x
      · have hx0 : x = 0 := le_antisymm hx h1
        rw [if_pos h1, hx0, add_zero, Int.ceil_intCast, Int.floor_zero, add_zero]
      · rw [if_neg h1, add_comm ((a : ℚ)) x, Int.ceil_add_int]; omega

/-- C1 (amended).  In the span probe and in every per-cue placement, frames
are computed as `int(start_frame + seconds * fps)` — truncation toward zero
applied to the whole sum, not to `seconds * fps` alone; this agrees with the
claim's `start_frame + truncate(seconds * frame_rate)` whenever
`seconds * frame_rate` and `start_frame + seconds * frame_rate` are both
nonnegative or both nonpositive (in particular for all nonnegative times
placed at a nonnegative start frame), but not in general. -/
theorem import_truncation_after_add (content : String) (sf ch : ℤ) (fps : ℚ)
    (tn : String) (resolve : ℤ → ℤ → ℤ → ℤ) (r : ImportResult)
    (hok : importSRT content sf fps ch tn resolve = .ok r) :
    (∃ (first : RawCue) (rest : List RawCue) (fs : ℚ),
       srt_findall content = first :: rest ∧
       parse_srt_time first.start_time = some fs ∧
       r.probe_start = pyInt ((sf : ℚ) + fs * fps) ∧
       ((0 ≤ fs * fps ∧ 0 ≤ (sf : ℚ) + fs * fps) ∨
          (fs * fps ≤ 0 ∧ (sf : ℚ) + fs * fps ≤ 0) →
         r.probe_start = sf + pyInt (fs * fps)))
    ∧ r.strips.length = (srt_findall content).length
    ∧ ∀ i (h1 : i < (srt_findall content).length) (h2 : i < r.strips.length),
        ∃ s e : ℚ,
          parse_srt_time ((srt_findall content).get ⟨i, h1⟩).start_time = some s ∧
          parse_srt_time ((srt_findall content).get ⟨i, h1⟩).end_time = some e ∧
          (r.strips.get ⟨i, h2⟩).frame_start = pyInt ((sf : ℚ) + s * fps) ∧
          ((0 ≤ s * fps ∧ 0 ≤ (sf : ℚ) + s * fps) ∨
             (s * fps ≤ 0 ∧ (sf : ℚ) + s * fps ≤ 0) →
            (r.strips.get ⟨i, h2⟩).frame_start = sf + pyInt (s * fps)) ∧
          (r.strips.get ⟨i, h2⟩).frame_final_end =
            pyInt ((sf : ℚ) + s * fps) +
              (if pyInt ((sf : ℚ) + e * fps) - pyInt ((sf : ℚ) + s * fps) ≤ 0 then 1
               else pyInt ((sf : ℚ) + e * fps) - pyInt ((sf : ℚ) + s * fps)) := by
  obtain ⟨first, rest, fs, ls, hm, hfs, _, hps, _, _, hpa⟩ := importSRT_ok hok
  rw [← hm] at hpa
  obtain ⟨hlen, hget⟩ := placeAll_some hpa
  refine ⟨⟨first, rest, fs, hm, hfs, by simpa [frameCalc] using hps,
      fun hc => ?_⟩, hlen, fun i h1 h2 => ?_⟩
  · rw [hps]; exact pyInt_int_add hc
  · have hpc := hget i h1 h2
    obtain ⟨s, e, hs, he, hp⟩ := placeCue_some hpc
    refine ⟨s, e, hs, he, ?_, ?_, ?_⟩
    · rw [hp]; rfl
    · intro hc; rw [hp]; simpa [frameCalc] using pyInt_int_add hc
    · rw [hp]; rfl

/-- C1 counterexample.  With `start_frame = 1`, `fps = 1` and a cue starting
at `-0.5 s`, the code places the cue at frame `int(1 + (-0.5)) = 0`, while
the claim's formula `start_frame + truncate(seconds * frame_rate)` gives
`1 + 0 = 1`. -/
theorem import_truncation_after_add_cex :
    ((placeCue 1 1 1 "S" ⟨"1", "-00:00:00,500", "00:00:01,000", "X"⟩).map
        PlacedStrip.frame_start = some 0)
    ∧ parse_srt_time "-00:00:00,500" = some (-(1/2) : ℚ)
    ∧ (1 : ℤ) + pyInt ((-(1/2) : ℚ) * 1) = 1
    ∧ (0 : ℤ) ≠ 1 := by decide

/-- Witness for `import_truncation_after_add` at a one-cue input. -/
theorem import_truncation_after_add_witness :
    importSRT "1\n00:00:01,000 --> 00:00:02,000\nX\n" 0 1 1 "S" (fun a _ _ => a)
      = .ok ⟨1, 2, 1, [⟨"S", "X", 1, 1, 2⟩]⟩
    ∧ (⟨1, 2, 1, [⟨"S", "X", 1, 1, 2⟩]⟩ : ImportResult).strips.length
        = (srt_findall "1\n00:00:01,000 --> 00:00:02,000\nX\n").length :=
  ⟨by decide,
   (import_truncation_after_add _ 0 1 1 "S" (fun a _ _ => a) _ (by decide)).2.1⟩

/-- C3 (amended).  In the import path every cue whose computed end frame is
not strictly after its computed start frame gets a duration of exactly
1 frame, and every placed strip has a strictly positive duration.  The
export path performs no such clamp (see the counterexample). -/
theorem import_min_duration_clamp (content : String) (sf ch : ℤ) (fps : ℚ)
    (tn : String) (resolve : ℤ → ℤ → ℤ → ℤ) (r : ImportResult)
    (hok : importSRT content sf fps ch tn resolve = .ok r) :
    ∀ i (h1 : i < (srt_findall content).length) (h2 : i < r.strips.length),
      ∃ s e : ℚ,
        parse_srt_time ((srt_findall content).get ⟨i, h1⟩).start_time = some s ∧
        parse_srt_time ((srt_findall content).get ⟨i, h1⟩).end_time = some e ∧
        (frameCalc sf e fps ≤ frameCalc sf s fps →
          (r.strips.get ⟨i, h2⟩).frame_final_end
            = (r.strips.get ⟨i, h2⟩).frame_start + 1) ∧
        (frameCalc sf s fps < frameCalc sf e fps →
          (r.strips.get ⟨i, h2⟩).frame_final_end = frameCalc sf e fps) ∧
        (r.strips.get ⟨i, h2⟩).frame_start < (r.strips.get ⟨i, h2⟩).frame_final_end := by
  obtain ⟨first, rest, fs, ls, hm, _, _, _, _, _, hpa⟩ := importSRT_ok hok
  rw [← hm] at hpa
  obtain ⟨_, hget⟩ := placeAll_some hpa
  intro i h1 h2
  obtain ⟨s, e, hs, he, hp⟩ := placeCue_some (hget i h1 h2)
  refine ⟨s, e, hs, he, fun hle => ?_, fun hlt => ?_, ?_⟩
  · rw [hp]
    have : frameCalc sf e fps - frameCalc sf s fps ≤ 0 := by omega
    simp [this]
  · rw [hp]
    have : ¬ (frameCalc sf e fps - frameCalc sf s fps ≤ 0) := by omega
    simp [this]
  · rw [hp]
    by_cases hd : frameCalc sf e fps - frameCalc sf s fps ≤ 0
    · simp only [hd, if_true]
      omega
    · simp only [hd, if_false]
      omega

/-- C3 counterexample.  The export path has no clamp: a text strip whose end
frame equals its start frame is serialized with equal start and end
timecodes, not with a 1-frame (here 1-second) duration. -/
theorem import_min_duration_clamp_cex :
    exportSRT [⟨"TEXT", 1, 5, 5, "X"⟩] 1 0
      = .ok ["1\n", "00:00:05,000 --> 00:00:05,000\n", "X\n\n"]
    ∧ ("00:00:05,000 --> 00:00:05,000\n" : String)
        ≠ "00:00:05,000 --> 00:00:06,000\n" := by decide

/-- Witness for `import_min_duration_clamp` at a zero-duration cue. -/
theorem import_min_duration_clamp_witness :
    (⟨"S", "X", 1, 1, 2⟩ : PlacedStrip).frame_start
      < (⟨"S", "X", 1, 1, 2⟩ : PlacedStrip).frame_final_end := by
  have h := import_min_duration_clamp "1\n00:00:01,000 --> 00:00:01,000\nX\n"
    0 1 1 "S" (fun a _ _ => a) ⟨1, 2, 1, [⟨"S", "X", 1, 1, 2⟩]⟩ (by decide)
    0 (by decide) (by decide)
  obtain ⟨s, e, _, _, _, _, hlt⟩ := h
  exact hlt

/-- C9 (amended).  The text delivered to placement is the captured group
passed through Python `str.strip()`: whitespace is removed from both ends,
so leading whitespace and leading blank lines are removed as well, not only
trailing blank content. -/
theorem import_text_stripped (content : String) (sf ch : ℤ) (fps : ℚ)
    (tn : String) (resolve : ℤ → ℤ → ℤ → ℤ) (r : ImportResult)
    (hok : importSRT content sf fps ch tn resolve = .ok r) :
    r.strips.length = (srt_findall content).length ∧
    ∀ i (h1 : i < (srt_findall content).length) (h2 : i < r.strips.length),
      (r.strips.get ⟨i, h2⟩).text = pyStrip ((srt_findall content).get ⟨i, h1⟩).text := by
  obtain ⟨first, rest, fs, ls, hm, _, _, _, _, _, hpa⟩ := importSRT_ok hok
  rw [← hm] at hpa
  obtain ⟨hlen, hget⟩ := placeAll_some hpa
  refine ⟨hlen, fun i h1 h2 => ?_⟩
  obtain ⟨s, e, _, _, hp⟩ := placeCue_some (hget i h1 h2)
  rw [hp]

/-- C9 counterexample.  A cue whose text payload begins with two spaces: the
raw captured group is `"  Hi"` (no trailing blank content at all, so the
claim predicts the delivered text `"  Hi"`), but the strip is created with
text `"Hi"` — the leading whitespace is not preserved. -/
theorem import_text_stripped_cex :
    srt_findall "1\n00:00:01,000 --> 00:00:02,000\n  Hi\n"
      = [⟨"1", "00:00:01,000", "00:00:02,000", "  Hi"⟩]
    ∧ importSRT "1\n00:00:01,000 --> 00:00:02,000\n  Hi\n" 0 1 1 "S" (fun a _ _ => a)
        = .ok ⟨1, 2, 1, [⟨"S", "Hi", 1, 1, 2⟩]⟩
    ∧ ("Hi" : String) ≠ "  Hi" := by decide

/-- Witness for `import_text_stripped`. -/
theorem import_text_stripped_witness :
    (⟨1, 2, 1, [⟨"S", "Hi", 1, 1, 2⟩]⟩ : ImportResult).strips.length
      = (srt_findall "1\n00:00:01,000 --> 00:00:02,000\n  Hi\n").length :=
  (import_text_stripped "1\n00:00:01,000 --> 00:00:02,000\n  Hi\n" 0 1 1 "S"
    (fun a _ _ => a) ⟨1, 2, 1, [⟨"S", "Hi", 1, 1, 2⟩]⟩ (by decide)).1

/-- C7.  Whenever the cue-block pattern matches nowhere in the input —
including the empty string — the import operation reports the parse error
and is cancelled; the error branch precedes every host-mutating step
(the sequence editor is not even created, src lines 145–152), so no timeline
mutation occurs. -/
theorem import_no_cues_error (content : String) (sf : ℤ) (fps : ℚ) (ch : ℤ)
    (tn : String) (resolve : ℤ → ℤ → ℤ → ℤ)
    (h : srt_findall content = []) :
    importSRT content sf fps ch tn resolve
      = .error "No subtitles found in the SRT file" := by
  unfold importSRT
  rw [h]

/-- Witness for `import_no_cues_error`: the empty string and a non-matching
string. -/
theorem import_no_cues_error_witness :
    importSRT "" 1 1 1 "Subtitle {index}" (fun a _ _ => a)
      = .error "No subtitles found in the SRT file"
    ∧ importSRT "garbage\n12:00" 1 1 1 "Subtitle {index}" (fun a _ _ => a)
      = .error "No subtitles found in the SRT file" :=
  ⟨import_no_cues_error "" 1 1 1 "Subtitle {index}" (fun a _ _ => a) (by decide),
   import_no_cues_error "garbage\n12:00" 1 1 1 "Subtitle {index}" (fun a _ _ => a)
     (by decide)⟩

/-- C6.  The two-cue reference input parses to exactly the two expected cue
records, in order, with the expected indices and times. -/
theorem parse_two_cue_blocks :
    srt_findall "1\n00:00:01,000 --> 00:00:02,000\nHello\n\n2\n00:00:03,000 --> 00:00:04,500\nWorld\n"
      = [⟨"1", "00:00:01,000", "00:00:02,000", "Hello"⟩,
         ⟨"2", "00:00:03,000", "00:00:04,500", "World"⟩]
    ∧ pyParseNat "1".data = some 1
    ∧ pyParseNat "2".data = some 2
    ∧ parse_srt_time "00:00:01,000" = some 1
    ∧ parse_srt_time "00:00:02,000" = some 2
    ∧ parse_srt_time "00:00:03,000" = some 3
    ∧ parse_srt_time "00:00:04,500" = some (9/2 : ℚ) := by decide

/-- C5.  Export fails before any file output when the selection filtered to
text strips is empty, and when the filtered strips do not all share one
channel; both checks precede the `open` of the output file, and the second
error message contains the claimed phrase. -/
theorem export_validation (strips : List SelStrip) (fps : ℚ) (sf : ℤ) :
    (strips.filter (fun s => s.stype = "TEXT") = [] →
       exportSRT strips fps sf = .error "No text strips selected")
    ∧ (∀ (first : SelStrip) (rest : List SelStrip),
         strips.filter (fun s => s.stype = "TEXT") = first :: rest →
         (∃ s ∈ first :: rest, s.channel ≠ first.channel) →
         exportSRT strips fps sf
           = .error "All selected strips must be on the same channel to avoid conflicts")
    ∧ (∃ pre post : String,
         "All selected strips must be on the same channel to avoid conflicts"
           = pre ++ "must be on the same channel" ++ post) := by
  refine ⟨fun h => ?_, fun first rest hf hex => ?_,
    ⟨"All selected strips ", " to avoid conflicts", by decide⟩⟩
  · unfold exportSRT
    rw [h]
  · unfold exportSRT
    rw [hf]
    obtain ⟨s, hs, hne⟩ := hex
    have hs' : s ∈ rest := by
      rcases List.mem_cons.mp hs with h | h
      · exact absurd (h ▸ rfl) hne
      · exact h
    have hany : (first :: rest).any (fun s => decide (s.channel ≠ first.channel)) = true :=
      List.any_eq_true.mpr ⟨s, hs, by simpa using hne⟩
    simp [hany]
    exact ⟨s, hs', hne⟩

/-- Witness for `export_validation`: an empty filtered selection and a
two-channel selection. -/
theorem export_validation_witness :
    exportSRT [⟨"SOUND", 1, 0, 1, "A"⟩] 1 0 = .error "No text strips selected"
    ∧ exportSRT [⟨"TEXT", 1, 0, 1, "A"⟩, ⟨"TEXT", 2, 1, 2, "B"⟩] 1 0
        = .error "All selected strips must be on the same channel to avoid conflicts" :=
  ⟨(export_validation [⟨"SOUND", 1, 0, 1, "A"⟩] 1 0).1 (by decide),
   (export_validation [⟨"TEXT", 1, 0, 1, "A"⟩, ⟨"TEXT", 2, 1, 2, "B"⟩] 1 0).2.1
     ⟨"TEXT", 1, 0, 1, "A"⟩ [⟨"TEXT", 2, 1, 2, "B"⟩] (by decide)
     ⟨⟨"TEXT", 2, 1, 2, "B"⟩, by decide, by decide⟩⟩

/-- C10.  `parse_srt_time` triggers its negation branch for a `'-'` anywhere
in the input, deletes every `'-'`, and negates the parse of the remainder:
inserting a single `'-'` at any position of a dash-free string — leading or
embedded — negates the parse of that string exactly once. -/
theorem parse_negates_any_dash (s₁ s₂ : String)
    (h : ∀ c ∈ s₁.data ++ s₂.data, c ≠ '-') :
    parse_srt_time (s₁ ++ "-" ++ s₂)
      = (parse_srt_time (s₁ ++ s₂)).map (fun x => -x) := by
  have hdata : (s₁ ++ "-" ++ s₂).data = s₁.data ++ '-' :: s₂.data := by
    have hd : ("-" : String).data = ['-'] := rfl
    rw [String.data_append, String.data_append, hd, List.append_assoc]
    rfl
  have hdata2 : (s₁ ++ s₂).data = s₁.data ++ s₂.data := String.data_append s₁ s₂
  unfold parse_srt_time
  rw [hdata, hdata2]
  have hmem : '-' ∈ s₁.data ++ '-' :: s₂.data :=
    List.mem_append_right _ (List.mem_cons_self _ _)
  rw [if_pos hmem]
  have hnot : ¬ '-' ∈ s₁.data ++ s₂.data := fun hc => (h _ hc) rfl
  rw [if_neg hnot]
  have h1 : (s₁.data).filter (fun c => c ≠ '-') = s₁.data :=
    List.filter_eq_self.mpr fun a ha => by
      simpa using h a (List.mem_append_left _ ha)
  have h2 : (s₂.data).filter (fun c => c ≠ '-') = s₂.data :=
    List.filter_eq_self.mpr fun a ha => by
      simpa using h a (List.mem_append_right _ ha)
  have hfil : (s₁.data ++ '-' :: s₂.data).filter (fun c => c ≠ '-') = s₁.data ++ s₂.data := by
    rw [List.filter_append, List.filter_cons, h1, h2]
    simp
  rw [hfil]

/-- Witness for `parse_negates_any_dash`: a dash inside the minutes field
negates the whole timecode. -/
theorem parse_negates_any_dash_witness :
    parse_srt_time ("00:0" ++ "-" ++ "0:01,000")
      = (parse_srt_time ("00:0" ++ "0:01,000")).map (fun x => -x)
    ∧ parse_srt_time "00:0-0:01,000" = some (-1 : ℚ) :=
  ⟨parse_negates_any_dash "00:0" "0:01,000" (by decide), by decide⟩

/-- Concatenation distributes over list append. -/
theorem concatAll_append (a b : List String) :
    concatAll (a ++ b) = concatAll a ++ concatAll b := by
  induction a with
  | nil => rw [List.nil_append, concatAll, String.empty_append]
  | cons x xs ih => rw [List.cons_append, concatAll, concatAll, ih, String.append_assoc]

/-- A string of positive length is not empty. -/
theorem ne_empty_of_length_pos {s : String} (h : 0 < s.length) : s ≠ "" := by
  intro hc
  rw [hc] at h
  exact absurd h (by decide)

/-- Unfolding of a successful export: the write calls are the per-cue blocks
of the sorted, renumbered selection. -/
theorem exportSRT_ok {strips : List SelStrip} {fps : ℚ} {sf : ℤ} {ws : List String}
    (h : exportSRT strips fps sf = .ok ws) :
    ∃ (first : SelStrip) (rest : List SelStrip),
      strips.filter (fun s => s.stype = "TEXT") = first :: rest ∧
      ws = (enumFrom 1 (sortStrips (first :: rest))).flatMap
             (fun p => cueWrites fps sf p.1 p.2) := by
  unfold exportSRT at h
  cases hf : strips.filter (fun s => s.stype = "TEXT") with
  | nil => rw [hf] at h; exact absurd h (by simp)
  | cons first rest =>
    rw [hf] at h
    dsimp only at h
    by_cases hc : ((first :: rest).any fun s => decide (s.channel ≠ first.channel)) = true
    · rw [if_pos hc] at h; exact absurd h (by simp)
    · rw [if_neg hc] at h
      simp only [Except.ok.injEq] at h
      exact ⟨first, rest, rfl, h.symm⟩

/-- Every write call of the export loop is a nonempty string. -/
theorem exportSRT_writes_ne_empty {strips : List SelStrip} {fps : ℚ} {sf : ℤ}
    {ws : List String} (h : exportSRT strips fps sf = .ok ws) :
    ∀ w ∈ ws, w ≠ "" := by
  obtain ⟨first, rest, _, hws⟩ := exportSRT_ok h
  subst hws
  intro w hw
  obtain ⟨p, _, hwc⟩ := List.mem_flatMap.mp hw
  unfold cueWrites at hwc
  have hsuffix : ∀ (a b : String), 0 < b.length → a ++ b ≠ "" := fun a b hb =>
    ne_empty_of_length_pos (by rw [String.length_append]; omega)
  simp only [List.mem_cons, List.not_mem_nil, or_false] at hwc
  rcases hwc with h1 | h1 | h1
  · rw [h1]; exact hsuffix _ "\n" (by decide)
  · rw [h1]; exact hsuffix _ "\n" (by decide)
  · rw [h1]; exact hsuffix _ "\n\n" (by decide)

/-- C4 (amended).  The export loop writes each cue's text straight to the
output file; there is no buffering, atomic replacement, or deletion of
partial output.  If the operation fails after `k` of the write calls with
`0 < k < ws.length`, the file retains exactly the concatenation of the first
`k` calls: a nonempty proper prefix of the complete output, not an empty or
complete file. -/
theorem export_partial_write (strips : List SelStrip) (fps : ℚ) (sf : ℤ)
    (ws : List String) (k : ℕ)
    (hok : exportSRT strips fps sf = .ok ws)
    (h1 : 0 < k) (h2 : k < ws.length) :
    writtenSoFar ws k ≠ ""
    ∧ writtenSoFar ws k ≠ concatAll ws
    ∧ ∃ rest : String, rest ≠ "" ∧ concatAll ws = writtenSoFar ws k ++ rest := by
  have hne := exportSRT_writes_ne_empty hok
  have hpos : ∀ w ∈ ws, 0 < w.length := by
    intro w hw
    rcases Nat.eq_zero_or_pos w.length with hz | hp
    · exact absurd (by cases w with | mk d =>
        rw [String.length_mk] at hz
        rw [List.length_eq_zero] at hz
        rw [hz]) (hne w hw)
    · exact hp
  have hsplit : concatAll ws = writtenSoFar ws k ++ concatAll (ws.drop k) := by
    unfold writtenSoFar
    rw [← concatAll_append, List.take_append_drop]
  have hdrop : ∃ w t, ws.drop k = w :: t := by
    cases hd : ws.drop k with
    | nil => exact absurd (List.drop_eq_nil_iff.mp hd) (by omega)
    | cons w t => exact ⟨w, t, rfl⟩
  obtain ⟨w, t, hd⟩ := hdrop
  have hwmem : w ∈ ws := by
    have : w ∈ ws.drop k := by rw [hd]; exact List.mem_cons_self w t
    exact List.mem_of_mem_drop this
  have hrest : 0 < (concatAll (ws.drop k)).length := by
    rw [hd, concatAll, String.length_append]
    have := hpos w hwmem
    omega
  have htake : ∃ w0 t0, ws.take k = w0 :: t0 := by
    cases ht : ws.take k with
    | nil =>
      have hlen : 0 < (ws.take k).length := by
        rw [List.length_take]
        omega
      exact absurd ht (List.length_pos.mp hlen)
    | cons w0 t0 => exact ⟨w0, t0, rfl⟩
  obtain ⟨w0, t0, ht⟩ := htake
  have hw0mem : w0 ∈ ws := by
    have : w0 ∈ ws.take k := by rw [ht]; exact List.mem_cons_self w0 t0
    exact List.mem_of_mem_take this
  refine ⟨?_, ?_, concatAll (ws.drop k), ne_empty_of_length_pos hrest, hsplit⟩
  · unfold writtenSoFar
    rw [ht, concatAll]
    apply ne_empty_of_length_pos
    rw [String.length_append]
    have := hpos w0 hw0mem
    omega
  · intro hc
    have := congrArg String.length hsplit
    rw [← hc, String.length_append] at this
    omega

/-- C4 counterexample.  A two-cue export: after the first cue's three write
calls the file holds exactly the first block — a nonempty, incomplete SRT
file, contradicting "complete file or no partial output". -/
theorem export_partial_write_cex :
    exportSRT [⟨"TEXT", 1, 0, 1, "A"⟩, ⟨"TEXT", 1, 1, 2, "B"⟩] 1 0
      = .ok ["1\n", "00:00:00,000 --> 00:00:01,000\n", "A\n\n",
             "2\n", "00:00:01,000 --> 00:00:02,000\n", "B\n\n"]
    ∧ writtenSoFar ["1\n", "00:00:00,000 --> 00:00:01,000\n", "A\n\n",
             "2\n", "00:00:01,000 --> 00:00:02,000\n", "B\n\n"] 3
        = "1\n00:00:00,000 --> 00:00:01,000\nA\n\n"
    ∧ ("1\n00:00:00,000 --> 00:00:01,000\nA\n\n" : String) ≠ ""
    ∧ ("1\n00:00:00,000 --> 00:00:01,000\nA\n\n" : String)
        ≠ concatAll ["1\n", "00:00:00,000 --> 00:00:01,000\n", "A\n\n",
             "2\n", "00:00:01,000 --> 00:00:02,000\n", "B\n\n"] := by decide

/-- Witness for `export_partial_write`. -/
theorem export_partial_write_witness :
    writtenSoFar ["1\n", "00:00:00,000 --> 00:00:01,000\n", "A\n\n",
        "2\n", "00:00:01,000 --> 00:00:02,000\n", "B\n\n"] 3
      ≠ concatAll ["1\n", "00:00:00,000 --> 00:00:01,000\n", "A\n\n",
        "2\n", "00:00:01,000 --> 00:00:02,000\n", "B\n\n"] :=
  (export_partial_write [⟨"TEXT", 1, 0, 1, "A"⟩, ⟨"TEXT", 1, 1, 2, "B"⟩] 1 0
    ["1\n", "00:00:00,000 --> 00:00:01,000\n", "A\n\n",
     "2\n", "00:00:01,000 --> 00:00:02,000\n", "B\n\n"] 3
    (by decide) (by decide) (by decide)).2.1

/-- Inserting permutes: `insertStrip s l` has the same elements as `s :: l`. -/
theorem insertStrip_perm (s : SelStrip) (l : List SelStrip) :
    List.Perm (insertStrip s l) (s :: l) := by
  induction l with
  | nil => exact List.Perm.refl _
  | cons t ts ih =>
    unfold insertStrip
    by_cases h : s.frame_start ≤ t.frame_start
    · rw [if_pos h]
    · rw [if_neg h]
      exact List.Perm.trans (List.Perm.cons t ih) (List.Perm.swap s t ts)

/-- Members of an insertion come from the inserted element or the list. -/
theorem mem_insertStrip {x s : SelStrip} {l : List SelStrip}
    (h : x ∈ insertStrip s l) : x = s ∨ x ∈ l := by
  have := (insertStrip_perm s l).mem_iff.mp h
  simpa using this

/-- Insertion preserves sortedness by `frame_start`. -/
theorem insertStrip_sorted {s : SelStrip} {l : List SelStrip}
    (h : List.Pairwise (fun a b => a.frame_start ≤ b.frame_start) l) :
    List.Pairwise (fun a b => a.frame_start ≤ b.frame_start) (insertStrip s l) := by
  induction l with
  | nil => simp [insertStrip]
  | cons t ts ih =>
    obtain ⟨ht, hts⟩ := List.pairwise_cons.mp h
    unfold insertStrip
    by_cases hle : s.frame_start ≤ t.frame_start
    · rw [if_pos hle]
      refine List.pairwise_cons.mpr ⟨fun x hx => ?_, h⟩
      rcases List.mem_cons.mp hx with rfl | hx
      · exact hle
      · exact le_trans hle (ht x hx)
    · rw [if_neg hle]
      refine List.pairwise_cons.mpr ⟨fun x hx => ?_, ih hts⟩
      rcases mem_insertStrip hx with rfl | hx
      · omega
      · exact ht x hx

/-- The strips of any one `frame_start` value keep their relative order under
insertion: an element is inserted after every earlier element with a
strictly smaller key and before every element with a `≥` key. -/
theorem filter_insertStrip (s : SelStrip) (l : List SelStrip) (v : ℤ) :
    (insertStrip s l).filter (fun x => x.frame_start = v)
      = if s.frame_start = v
          then s :: l.filter (fun x => x.frame_start = v)
          else l.filter (fun x => x.frame_start = v) := by
  induction l with
  | nil =>
    unfold insertStrip
    by_cases hv : s.frame_start = v
    · simp [List.filter_cons, hv]
    · simp [List.filter_cons, hv]
  | cons t ts ih =>
    unfold insertStrip
    by_cases hle : s.frame_start ≤ t.frame_start
    · rw [if_pos hle]
      by_cases hv : s.frame_start = v
      · simp [List.filter_cons, hv]
      · simp [List.filter_cons, hv]
    · rw [if_neg hle]
      by_cases hv : s.frame_start = v
      · have htv : ¬ (t.frame_start = v) := by omega
        simp [List.filter_cons, hv, htv, ih]
      · simp [List.filter_cons, hv, ih]

/-- Sorting permutes the selection. -/
theorem sortStrips_perm (l : List SelStrip) : List.Perm (sortStrips l) l := by
  induction l with
  | nil => exact List.Perm.refl _
  | cons s ss ih =>
    exact List.Perm.trans (insertStrip_perm s (sortStrips ss)) (List.Perm.cons s ih)

/-- The sort output is ordered by `frame_start`. -/
theorem sortStrips_sorted (l : List SelStrip) :
    List.Pairwise (fun a b => a.frame_start ≤ b.frame_start) (sortStrips l) := by
  induction l with
  | nil => simp [sortStrips]
  | cons s ss ih => exact insertStrip_sorted ih

/-- Stability: for every key value, the strips with that `frame_start` appear
in the sorted list in their original relative order. -/
theorem sortStrips_stable (l : List SelStrip) (v : ℤ) :
    (sortStrips l).filter (fun x => x.frame_start = v)
      = l.filter (fun x => x.frame_start = v) := by
  induction l with
  | nil => rfl
  | cons s ss ih =>
    have hdef : sortStrips (s :: ss) = insertStrip s (sortStrips ss) := rfl
    rw [hdef, filter_insertStrip, ih, List.filter_cons]
    by_cases hv : s.frame_start = v
    · simp [hv]
    · simp [hv]

/-- Python `enumerate(l, i)` numbers the elements `i, i+1, …` in order. -/
theorem enumFrom_map_fst (i : ℕ) (l : List SelStrip) :
    (enumFrom i l).map Prod.fst = List.range' i l.length := by
  induction l generalizing i with
  | nil => rfl
  | cons x xs ih => simp [enumFrom, List.range', ih]

/-- Python `enumerate` does not change the elements. -/
theorem enumFrom_map_snd (i : ℕ) (l : List SelStrip) :
    (enumFrom i l).map Prod.snd = l := by
  induction l generalizing i with
  | nil => rfl
  | cons x xs ih => simp [enumFrom, ih]

/-- C8.  For a nonempty single-channel text selection the export sorts the
strips by `frame_start` with a stable sort (the order of equal keys is the
host-selection order), renumbers them `1, 2, …` regardless of any original
numbering, and emits for the `n`-th strip exactly the writes
`"{n}\n"`, `"{start} --> {end}\n"`, `"{text}\n\n"` where start/end format
`(frame - start_frame) / fps`. -/
theorem export_sorted_renumbered (strips : List SelStrip) (fps : ℚ) (sf : ℤ)
    (first : SelStrip) (rest : List SelStrip)
    (hf : strips.filter (fun s => s.stype = "TEXT") = first :: rest)
    (hch : ∀ s ∈ first :: rest, s.channel = first.channel) :
    exportSRT strips fps sf
      = .ok ((enumFrom 1 (sortStrips (first :: rest))).flatMap
              (fun p => cueWrites fps sf p.1 p.2))
    ∧ List.Pairwise (fun a b => a.frame_start ≤ b.frame_start)
        (sortStrips (first :: rest))
    ∧ List.Perm (sortStrips (first :: rest)) (first :: rest)
    ∧ (∀ v : ℤ, (sortStrips (first :: rest)).filter (fun x => x.frame_start = v)
          = (first :: rest).filter (fun x => x.frame_start = v))
    ∧ (enumFrom 1 (sortStrips (first :: rest))).map Prod.fst
        = List.range' 1 (first :: rest).length
    ∧ ∀ n strip, (n, strip) ∈ enumFrom 1 (sortStrips (first :: rest)) →
        cueWrites fps sf n strip
          = [natToString n ++ "\n",
             format_srt_time (((strip.frame_start - sf : ℤ) : ℚ) / fps) ++ " --> "
               ++ format_srt_time (((strip.frame_final_end - sf : ℤ) : ℚ) / fps) ++ "\n",
             strip.text ++ "\n\n"] := by
  refine ⟨?_, sortStrips_sorted _, sortStrips_perm _, sortStrips_stable _,
    ?_, fun n strip _ => rfl⟩
  · unfold exportSRT
    rw [hf]
    dsimp only
    have hany : ¬ (((first :: rest).any fun s => decide (s.channel ≠ first.channel)) = true) := by
      rw [List.any_eq_true]
      rintro ⟨s, hs, hne⟩
      exact absurd (hch s hs) (by simpa using hne)
    rw [if_neg hany]
  · rw [enumFrom_map_fst, (sortStrips_perm (first :: rest)).length_eq]

/-- Witness for `export_sorted_renumbered`: two out-of-order strips on one
channel are emitted sorted and renumbered from 1. -/
theorem export_sorted_renumbered_witness :
    exportSRT [⟨"TEXT", 1, 10, 12, "B"⟩, ⟨"TEXT", 1, 3, 5, "A"⟩] 1 0
      = .ok ((enumFrom 1 (sortStrips [⟨"TEXT", 1, 10, 12, "B"⟩, ⟨"TEXT", 1, 3, 5, "A"⟩])).flatMap
              (fun p => cueWrites 1 0 p.1 p.2)) :=
  (export_sorted_renumbered [⟨"TEXT", 1, 10, 12, "B"⟩, ⟨"TEXT", 1, 3, 5, "A"⟩] 1 0
    ⟨"TEXT", 1, 10, 12, "B"⟩ [⟨"TEXT", 1, 3, 5, "A"⟩] (by decide) (by decide)).1

/-! ## Decimal-digit and split lemmas for the timecode round trip -/

/-- Digit characters are digits. -/
theorem digitChar_isDigit {d : ℕ} (h : d < 10) : (digitChar d).isDigit = true := by
  interval_cases d <;> decide

/-- Value of a digit character. -/
theorem digitVal_digitChar {d : ℕ} (h : d < 10) : digitVal (digitChar d) = d := by
  interval_cases d <;> decide

/-- A digit character is none of the timecode punctuation characters. -/
theorem isDigit_ne {c : Char} (h : c.isDigit = true) :
    c ≠ ':' ∧ c ≠ ',' ∧ c ≠ '.' ∧ c ≠ '-' := by
  refine ⟨?_, ?_, ?_, ?_⟩ <;> (rintro rfl; exact absurd h (by decide))

/-- The fuel argument of `natDigitsAux` is irrelevant once sufficient. -/
theorem natDigitsAux_fuel : ∀ (f₁ f₂ n : ℕ), n < f₁ → n < f₂ →
    natDigitsAux f₁ n = natDigitsAux f₂ n := by
  intro f₁
  induction f₁ with
  | zero => intro f₂ n h; omega
  | succ f ih =>
    intro f₂ n h1 h2
    cases f₂ with
    | zero => omega
    | succ g =>
      by_cases h10 : n < 10
      · simp [natDigitsAux, h10]
      · simp only [natDigitsAux, h10, if_false]
        rw [ih g (n / 10) (by omega) (by omega)]

/-- The recurrence of the decimal rendering. -/
theorem natDigits_eq (n : ℕ) :
    natDigits n = if n < 10 then [digitChar n]
                  else natDigits (n / 10) ++ [digitChar (n % 10)] := by
  show (if n < 10 then [digitChar n]
        else natDigitsAux n (n / 10) ++ [digitChar (n % 10)]) = _
  by_cases h : n < 10
  · rw [if_pos h, if_pos h]
  · rw [if_neg h, if_neg h,
      natDigitsAux_fuel n (n / 10 + 1) (n / 10) (by omega) (by omega)]
    rfl

/-- Folding the positional-notation accumulator over the digits of `n`. -/
theorem foldl_digits (n : ℕ) : ∀ a : ℕ,
    (natDigits n).foldl (fun a c => 10 * a + digitVal c) a
      = a * 10 ^ (natDigits n).length + n := by
  induction n using Nat.strong_induction_on with
  | _ n ih =>
    intro a
    rw [natDigits_eq n]
    by_cases h : n < 10
    · rw [if_pos h]
      simp only [List.foldl_cons, List.foldl_nil, List.length_cons, List.length_nil]
      rw [digitVal_digitChar h]
      ring
    · rw [if_neg h, List.foldl_append, ih (n / 10) (by omega) a]
      simp only [List.foldl_cons, List.foldl_nil, List.length_append,
        List.length_cons, List.length_nil]

      rw [digitVal_digitChar (by omega : n % 10 < 10)]
      have hdm : 10 * (n / 10) + n % 10 = n := by omega
      calc 10 * (a * 10 ^ (natDigits (n / 10)).length + n / 10) + n % 10
          = a * 10 ^ ((natDigits (n / 10)).length + (0 + 1)) + (10 * (n / 10) + n % 10) := by
            rw [pow_add]; ring
        _ = a * 10 ^ ((natDigits (n / 10)).length + (0 + 1)) + n := by rw [hdm]

/-- Rendering then reading a natural number is the identity. -/
theorem natOfDigits_natDigits (n : ℕ) : natOfDigits (natDigits n) = n := by
  unfold natOfDigits
  rw [foldl_digits n 0]
  simp

/-- Every rendered character is a digit. -/
theorem natDigits_all_digit (n : ℕ) : ∀ c ∈ natDigits n, c.isDigit = true := by
  induction n using Nat.strong_induction_on with
  | _ n ih =>
    rw [natDigits_eq n]
    by_cases h : n < 10
    · rw [if_pos h]
      intro c hc
      rw [List.mem_singleton] at hc
      subst hc
      exact digitChar_isDigit h
    · rw [if_neg h]
      intro c hc
      rcases List.mem_append.mp hc with hc | hc
      · exact ih (n / 10) (by omega) c hc
      · rw [List.mem_singleton] at hc
        subst hc
        exact digitChar_isDigit (by omega)

/-- The rendering is never empty. -/
theorem natDigits_ne_nil (n : ℕ) : natDigits n ≠ [] := by
  rw [natDigits_eq n]
  by_cases h : n < 10 <;> simp [h]

/-- One-digit numbers render as a single character. -/
theorem natDigits_lt_ten {n : ℕ} (h : n < 10) : natDigits n = [digitChar n] := by
  rw [natDigits_eq n, if_pos h]

/-- Two-digit numbers render as two characters. -/
theorem natDigits_two {n : ℕ} (h1 : 10 ≤ n) (h2 : n < 100) :
    natDigits n = [digitChar (n / 10), digitChar (n % 10)] := by
  rw [natDigits_eq n, if_neg (by omega), natDigits_lt_ten (by omega)]
  rfl

/-- The millisecond field is always exactly three characters. -/
theorem pad3_length {n : ℕ} (h : n < 1000) : (pad3 n).length = 3 := by
  unfold pad3
  by_cases h1 : n < 10
  · rw [if_pos h1, natDigits_lt_ten h1]
    rfl
  · rw [if_neg h1]
    by_cases h2 : n < 100
    · rw [if_pos h2, natDigits_two (by omega) h2]
      rfl
    · rw [if_neg h2, natDigits_eq, if_neg (by omega),
        natDigits_two (by omega : 10 ≤ n / 10) (by omega : n / 10 < 100)]
      rfl

/-- All characters of `pad2 n` are digits. -/
theorem pad2_all_digit (n : ℕ) : ∀ c ∈ pad2 n, c.isDigit = true := by
  unfold pad2
  by_cases h : n < 10
  · rw [if_pos h]
    intro c hc
    rcases List.mem_cons.mp hc with rfl | hc
    · decide
    · exact natDigits_all_digit n c hc
  · rw [if_neg h]
    exact natDigits_all_digit n

/-- All characters of `pad3 n` are digits. -/
theorem pad3_all_digit (n : ℕ) : ∀ c ∈ pad3 n, c.isDigit = true := by
  unfold pad3
  by_cases h1 : n < 10
  · rw [if_pos h1]
    intro c hc
    rcases List.mem_cons.mp hc with rfl | hc
    · decide
    · rcases List.mem_cons.mp hc with rfl | hc
      · decide
      · exact natDigits_all_digit n c hc
  · rw [if_neg h1]
    by_cases h2 : n < 100
    · rw [if_pos h2]
      intro c hc
      rcases List.mem_cons.mp hc with rfl | hc
      · decide
      · exact natDigits_all_digit n c hc
    · rw [if_neg h2]
      exact natDigits_all_digit n

/-- `pad2` is never empty. -/
theorem pad2_ne_nil (n : ℕ) : pad2 n ≠ [] := by
  unfold pad2
  by_cases h : n < 10
  · rw [if_pos h]; exact List.cons_ne_nil _ _
  · rw [if_neg h]; exact natDigits_ne_nil n

/-- A leading zero does not change the value read. -/
theorem natOfDigits_cons_zero (l : List Char) :
    natOfDigits ('0' :: l) = natOfDigits l := by
  unfold natOfDigits
  rw [List.foldl_cons]
  have h0 : 10 * 0 + digitVal '0' = 0 := by decide
  rw [h0]

/-- Reading back a zero-padded two-digit field. -/
theorem natOfDigits_pad2 (n : ℕ) : natOfDigits (pad2 n) = n := by
  unfold pad2
  by_cases h : n < 10
  · rw [if_pos h, natOfDigits_cons_zero, natOfDigits_natDigits]
  · rw [if_neg h, natOfDigits_natDigits]

/-- Reading back a zero-padded three-digit field. -/
theorem natOfDigits_pad3 (n : ℕ) : natOfDigits (pad3 n) = n := by
  unfold pad3
  by_cases h1 : n < 10
  · rw [if_pos h1, natOfDigits_cons_zero, natOfDigits_cons_zero, natOfDigits_natDigits]
  · rw [if_neg h1]
    by_cases h2 : n < 100
    · rw [if_pos h2, natOfDigits_cons_zero, natOfDigits_natDigits]
    · rw [if_neg h2, natOfDigits_natDigits]

/-- `int()` succeeds on a zero-padded two-digit field. -/
theorem pyParseNat_pad2 (n : ℕ) : pyParseNat (pad2 n) = some n := by
  unfold pyParseNat
  rw [if_pos ⟨pad2_ne_nil n, List.all_eq_true.mpr (pad2_all_digit n)⟩, natOfDigits_pad2]

/-- Splitting a separator-free list is the singleton of the list. -/
theorem splitOnChar_no {c : Char} : ∀ {l : List Char}, (∀ x ∈ l, x ≠ c) →
    splitOnChar c l = [l] := by
  intro l
  induction l with
  | nil => intro _; rfl
  | cons x xs ih =>
    intro hl
    have hr := ih fun y hy => hl y (List.mem_cons_of_mem x hy)
    simp only [splitOnChar]
    rw [if_neg (hl x (List.mem_cons_self x xs)), hr]

/-- Splitting at the first separator occurrence. -/
theorem splitOnChar_sep {c : Char} : ∀ {a : List Char} (b : List Char),
    (∀ x ∈ a, x ≠ c) →
    splitOnChar c (a ++ c :: b) = a :: splitOnChar c b := by
  intro a
  induction a with
  | nil =>
    intro b _
    rw [List.nil_append]
    simp [splitOnChar]
  | cons x xs ih =>
    intro b hl
    rw [List.cons_append]
    simp only [splitOnChar]
    rw [if_neg (hl x (List.mem_cons_self x xs)),
      ih b fun y hy => hl y (List.mem_cons_of_mem x hy)]

/-- The `','` → `'.'` substitution fixes comma-free lists. -/
theorem map_comma_id {l : List Char} (hl : ∀ x ∈ l, x ≠ ',') :
    l.map (fun c => if c = ',' then '.' else c) = l := by
  induction l with
  | nil => rfl
  | cons x xs ih =>
    rw [List.map_cons, if_neg (hl x (List.mem_cons_self x xs)),
      ih fun y hy => hl y (List.mem_cons_of_mem x hy)]

/-- `float()` on the canonical seconds-and-milliseconds field. -/
theorem pyParseFloat_canonical (s ms : ℕ) (hms : ms < 1000) :
    pyParseFloat (pad2 s ++ '.' :: pad3 ms) = some ((s : ℚ) + (ms : ℚ) / 1000) := by
  unfold pyParseFloat
  rw [splitOnChar_sep (pad3 ms)
      (fun x hx => (isDigit_ne (pad2_all_digit s x hx)).2.2.1),
    splitOnChar_no (fun x hx => (isDigit_ne (pad3_all_digit ms x hx)).2.2.1)]
  dsimp only
  rw [if_pos ⟨Or.inl (pad2_ne_nil s),
      List.all_eq_true.mpr (pad2_all_digit s), List.all_eq_true.mpr (pad3_all_digit ms)⟩]
  rw [natOfDigits_pad2, natOfDigits_pad3, pad3_length hms]
  norm_num

/-- Every character of the canonical list is a digit, `':'` or `','`. -/
theorem tcChars_no_dash (h m s ms : ℕ) : ∀ x ∈ tcChars h m s ms, x ≠ '-' := by
  intro x hx
  unfold tcChars at hx
  simp only [List.mem_append, List.mem_cons] at hx
  rcases hx with hx | rfl | hx | rfl | hx | rfl | hx
  · exact (isDigit_ne (pad2_all_digit h x hx)).2.2.2
  · decide
  · exact (isDigit_ne (pad2_all_digit m x hx)).2.2.2
  · decide
  · exact (isDigit_ne (pad2_all_digit s x hx)).2.2.2
  · decide
  · exact (isDigit_ne (pad3_all_digit ms x hx)).2.2.2

/-- The dash-free parse of the canonical timecode character list. -/
theorem parseTimeCore_canonical (h m s ms : ℕ) (hms : ms < 1000) :
    parseTimeCore (tcChars h m s ms)
      = some ((h : ℚ) * 3600 + (m : ℚ) * 60 + ((s : ℚ) + (ms : ℚ) / 1000)) := by
  unfold parseTimeCore tcChars
  have hcomma : ∀ (n : ℕ), ∀ x ∈ pad2 n, x ≠ ',' :=
    fun n x hx => (isDigit_ne (pad2_all_digit n x hx)).2.1
  have hcolon : ∀ (n : ℕ), ∀ x ∈ pad2 n, x ≠ ':' :=
    fun n x hx => (isDigit_ne (pad2_all_digit n x hx)).1
  have hmap : (pad2 h ++ ':' :: (pad2 m ++ ':' :: (pad2 s ++ ',' :: pad3 ms))).map
      (fun c => if c = ',' then '.' else c)
      = pad2 h ++ ':' :: (pad2 m ++ ':' :: (pad2 s ++ '.' :: pad3 ms)) := by
    simp only [List.map_append, List.map_cons]
    rw [map_comma_id (hcomma h), map_comma_id (hcomma m), map_comma_id (hcomma s),
      map_comma_id (fun x hx => (isDigit_ne (pad3_all_digit ms x hx)).2.1)]
    simp
  rw [hmap]
  rw [splitOnChar_sep (pad2 m ++ ':' :: (pad2 s ++ '.' :: pad3 ms)) (hcolon h)]
  rw [splitOnChar_sep (pad2 s ++ '.' :: pad3 ms) (hcolon m)]
  have hlast : ∀ x ∈ pad2 s ++ '.' :: pad3 ms, x ≠ ':' := by
    intro x hx
    rcases List.mem_append.mp hx with hx | hx
    · exact hcolon s x hx
    · rcases List.mem_cons.mp hx with rfl | hx
      · decide
      · exact (isDigit_ne (pad3_all_digit ms x hx)).1
  rw [splitOnChar_no hlast]
  dsimp only
  rw [pyParseNat_pad2, pyParseNat_pad2, pyParseFloat_canonical s ms hms]
  rfl

/-- Parsing the canonical rendering of signed timecode fields recovers the
denoted value (milliseconds below 1000; the other fields unconstrained). -/
theorem parse_mkTimecode (neg : Bool) (h m s ms : ℕ) (hms : ms < 1000) :
    parse_srt_time (mkTimecode neg h m s ms) = some (timeValue neg h m s ms) := by
  have hassoc : pad2 h ++ ':' :: pad2 m ++ ':' :: pad2 s ++ ',' :: pad3 ms
      = tcChars h m s ms := by
    unfold tcChars
    simp [List.append_assoc]
  cases neg with
  | false =>
    have hdata : (mkTimecode false h m s ms).data = tcChars h m s ms := by
      unfold mkTimecode
      rw [← hassoc]
      simp
    unfold parse_srt_time
    rw [hdata, if_neg (fun hc => tcChars_no_dash h m s ms '-' hc rfl),
      parseTimeCore_canonical h m s ms hms]
    have htv : timeValue false h m s ms
        = (h : ℚ) * 3600 + (m : ℚ) * 60 + ((s : ℚ) + (ms : ℚ) / 1000) := by
      unfold timeValue
      rw [if_neg (by decide)]
      ring
    rw [htv]
  | true =>
    have hdata : (mkTimecode true h m s ms).data = '-' :: tcChars h m s ms := by
      unfold mkTimecode
      rw [← hassoc]
      simp
    unfold parse_srt_time
    rw [hdata, if_pos (List.mem_cons_self _ _)]
    have hfil : ('-' :: tcChars h m s ms).filter (fun c => c ≠ '-')
        = tcChars h m s ms := by
      have hstep : ('-' :: tcChars h m s ms).filter (fun c => c ≠ '-')
          = (tcChars h m s ms).filter (fun c => c ≠ '-') := by
        simp [List.filter_cons]
      rw [hstep]
      exact List.filter_eq_self.mpr fun a ha => by
        simpa using tcChars_no_dash h m s ms a ha
    rw [hfil, parseTimeCore_canonical h m s ms hms]
    have htv : timeValue true h m s ms
        = -((h : ℚ) * 3600 + (m : ℚ) * 60 + ((s : ℚ) + (ms : ℚ) / 1000)) := by
      unfold timeValue
      rw [if_pos rfl]
      ring
    rw [htv]
    rfl

/-- Floor of a natural number plus a fractional part in `[0, 1)`. -/
theorem floor_nat_add_frac (k : ℕ) (r : ℚ) (h0 : 0 ≤ r) (h1 : r < 1) :
    ⌊(k : ℚ) + r⌋ = (k : ℤ) := by
  have hc : ((k : ℤ) : ℚ) = (k : ℚ) := by push_cast; ring
  rw [← hc, add_comm, Int.floor_add_int,
    Int.floor_eq_zero_iff.mpr (Set.mem_Ico.mpr ⟨h0, h1⟩), zero_add]

/-- The four field extractions of `format_srt_time` on a canonical value. -/
theorem format_fields (h m s ms : ℕ) (hm : m < 60) (hs : s < 60) (hms : ms < 1000) :
    ⌊((h : ℚ) * 3600 + (m : ℚ) * 60 + (s : ℚ) + (ms : ℚ) / 1000) / 3600⌋ = (h : ℤ)
    ∧ ⌊fmod ((h : ℚ) * 3600 + (m : ℚ) * 60 + (s : ℚ) + (ms : ℚ) / 1000) 3600 / 60⌋
        = (m : ℤ)
    ∧ ⌊fmod ((h : ℚ) * 3600 + (m : ℚ) * 60 + (s : ℚ) + (ms : ℚ) / 1000) 60⌋ = (s : ℤ)
    ∧ ⌊(((h : ℚ) * 3600 + (m : ℚ) * 60 + (s : ℚ) + (ms : ℚ) / 1000)
          - (⌊(h : ℚ) * 3600 + (m : ℚ) * 60 + (s : ℚ) + (ms : ℚ) / 1000⌋ : ℚ)) * 1000⌋
        = (ms : ℤ) := by
  have hm' : (m : ℚ) ≤ 59 := by exact_mod_cast Nat.lt_succ_iff.mp hm
  have hs' : (s : ℚ) ≤ 59 := by exact_mod_cast Nat.lt_succ_iff.mp hs
  have hms' : (ms : ℚ) ≤ 999 := by exact_mod_cast Nat.lt_succ_iff.mp hms
  have hms1 : (ms : ℚ) / 1000 < 1 := by
    rw [div_lt_one (by norm_num)]
    linarith
  have f1 : ⌊((h : ℚ) * 3600 + (m : ℚ) * 60 + (s : ℚ) + (ms : ℚ) / 1000) / 3600⌋
      = (h : ℤ) := by
    have e1 : ((h : ℚ) * 3600 + (m : ℚ) * 60 + (s : ℚ) + (ms : ℚ) / 1000) / 3600
        = (h : ℚ) + ((m : ℚ) * 60 + (s : ℚ) + (ms : ℚ) / 1000) / 3600 := by ring
    rw [e1]
    refine floor_nat_add_frac h _ (by positivity) ?_
    rw [div_lt_one (by norm_num)]
    linarith
  have f4 : ⌊(h : ℚ) * 3600 + (m : ℚ) * 60 + (s : ℚ) + (ms : ℚ) / 1000⌋
      = ((3600 * h + 60 * m + s : ℕ) : ℤ) := by
    have e5 : (h : ℚ) * 3600 + (m : ℚ) * 60 + (s : ℚ) + (ms : ℚ) / 1000
        = ((3600 * h + 60 * m + s : ℕ) : ℚ) + (ms : ℚ) / 1000 := by push_cast; ring
    rw [e5]
    exact floor_nat_add_frac _ _ (by positivity) hms1
  refine ⟨f1, ?_, ?_, ?_⟩
  · unfold fmod
    rw [f1]
    have e2 : ((h : ℚ) * 3600 + (m : ℚ) * 60 + (s : ℚ) + (ms : ℚ) / 1000
          - 3600 * ((h : ℤ) : ℚ)) / 60
        = (m : ℚ) + ((s : ℚ) + (ms : ℚ) / 1000) / 60 := by push_cast; ring
    rw [e2]
    refine floor_nat_add_frac m _ (by positivity) ?_
    rw [div_lt_one (by norm_num)]
    linarith
  · unfold fmod
    have g1 : ⌊((h : ℚ) * 3600 + (m : ℚ) * 60 + (s : ℚ) + (ms : ℚ) / 1000) / 60⌋
        = ((60 * h + m : ℕ) : ℤ) := by
      have e3 : ((h : ℚ) * 3600 + (m : ℚ) * 60 + (s : ℚ) + (ms : ℚ) / 1000) / 60
          = ((60 * h + m : ℕ) : ℚ) + ((s : ℚ) + (ms : ℚ) / 1000) / 60 := by
        push_cast; ring
      rw [e3]
      refine floor_nat_add_frac _ _ (by positivity) ?_
      rw [div_lt_one (by norm_num)]
      linarith
    rw [g1]
    have e4 : (h : ℚ) * 3600 + (m : ℚ) * 60 + (s : ℚ) + (ms : ℚ) / 1000
        - 60 * (((60 * h + m : ℕ) : ℤ) : ℚ) = (s : ℚ) + (ms : ℚ) / 1000 := by
      push_cast; ring
    rw [e4]
    exact floor_nat_add_frac s _ (by positivity) hms1
  · rw [f4]
    have e6 : ((h : ℚ) * 3600 + (m : ℚ) * 60 + (s : ℚ) + (ms : ℚ) / 1000
          - (((3600 * h + 60 * m + s : ℕ) : ℤ) : ℚ)) * 1000 = (ms : ℚ) := by
      push_cast; ring
    rw [e6, Int.floor_natCast]

/-- Formatting the canonical value reproduces the canonical rendering. -/
theorem format_mkTimecode (neg : Bool) (h m s ms : ℕ)
    (hm : m < 60) (hs : s < 60) (hms : ms < 1000)
    (hneg : neg = true → 0 < h + m + s + ms) :
    format_srt_time (timeValue neg h m s ms) = mkTimecode neg h m s ms := by
  have hX0 : (0 : ℚ) ≤ (h : ℚ) * 3600 + (m : ℚ) * 60 + (s : ℚ) + (ms : ℚ) / 1000 := by
    positivity
  obtain ⟨f1, f2, f3, f4⟩ := format_fields h m s ms hm hs hms
  have hton : ∀ n : ℕ, ((n : ℤ)).toNat = n := fun n => Int.toNat_natCast n
  cases neg with
  | false =>
    have htv : timeValue false h m s ms
        = (h : ℚ) * 3600 + (m : ℚ) * 60 + (s : ℚ) + (ms : ℚ) / 1000 := by
      unfold timeValue
      rw [if_neg (by decide)]
      ring
    have hlt : ¬ (timeValue false h m s ms < 0) := by
      rw [htv]
      exact not_lt.mpr hX0
    have habs : |timeValue false h m s ms|
        = (h : ℚ) * 3600 + (m : ℚ) * 60 + (s : ℚ) + (ms : ℚ) / 1000 := by
      rw [htv]
      exact abs_of_nonneg hX0
    simp only [format_srt_time]
    rw [if_neg hlt, habs, f1, f2, f3, f4, hton h, hton m, hton s, hton ms]
    rfl
  | true =>
    have hn := hneg rfl
    have hsum : (0 : ℚ) < (h : ℚ) + (m : ℚ) + (s : ℚ) + (ms : ℚ) := by
      have : (0 : ℕ) < h + m + s + ms := hn
      exact_mod_cast this
    have h0h : (0 : ℚ) ≤ (h : ℚ) := by positivity
    have h0m : (0 : ℚ) ≤ (m : ℚ) := by positivity
    have h0s : (0 : ℚ) ≤ (s : ℚ) := by positivity
    have h0ms : (0 : ℚ) ≤ (ms : ℚ) := by positivity
    have hX : (0 : ℚ) < (h : ℚ) * 3600 + (m : ℚ) * 60 + (s : ℚ) + (ms : ℚ) / 1000 := by
      linarith
    have htv : timeValue true h m s ms
        = -((h : ℚ) * 3600 + (m : ℚ) * 60 + (s : ℚ) + (ms : ℚ) / 1000) := by
      unfold timeValue
      rw [if_pos rfl]
      ring
    have hlt : timeValue true h m s ms < 0 := by
      rw [htv]
      exact neg_lt_zero.mpr hX
    have habs : |timeValue true h m s ms|
        = (h : ℚ) * 3600 + (m : ℚ) * 60 + (s : ℚ) + (ms : ℚ) / 1000 := by
      rw [htv, abs_neg]
      exact abs_of_nonneg hX0
    simp only [format_srt_time]
    rw [if_pos hlt, habs, f1, f2, f3, f4, hton h, hton m, hton s, hton ms]
    rfl

/-- C2 (amended).  The round trip `format_srt_time (parse_srt_time s) = s`
holds for every canonical timecode string — minutes and seconds fields below
60, hours field zero-padded to two digits with no superfluous leading zeros,
exactly three millisecond digits, and a leading `'-'` only on a nonzero
value (these are exactly the strings `mkTimecode` builds); it includes the
claimed examples.  It does not hold for every grammar-valid string (see the
counterexample). -/
theorem timecode_roundtrip (neg : Bool) (h m s ms : ℕ)
    (hm : m < 60) (hs : s < 60) (hms : ms < 1000)
    (hneg : neg = true → 0 < h + m + s + ms) :
    parse_srt_time (mkTimecode neg h m s ms) = some (timeValue neg h m s ms)
    ∧ format_srt_time (timeValue neg h m s ms) = mkTimecode neg h m s ms
    ∧ parse_srt_time "-00:00:01,500" = some (-(3/2) : ℚ)
    ∧ format_srt_time (-(3/2) : ℚ) = "-00:00:01,500" :=
  ⟨parse_mkTimecode neg h m s ms hms,
   format_mkTimecode neg h m s ms hm hs hms hneg,
   by decide, by decide⟩

/-- C2 counterexample.  `"00:00:99,000"` is grammar-valid (two-digit fields,
three millisecond digits) but does not round-trip: it parses to 99 s, which
formats back as `"00:01:39,000"`.  (`"-00:00:00,000"` likewise parses to 0,
which formats back unsigned.) -/
theorem timecode_roundtrip_cex :
    specValidTimecode "00:00:99,000" = true
    ∧ (parse_srt_time "00:00:99,000").map format_srt_time = some "00:01:39,000"
    ∧ ("00:01:39,000" : String) ≠ "00:00:99,000"
    ∧ specValidTimecode "-00:00:00,000" = true
    ∧ (parse_srt_time "-00:00:00,000").map format_srt_time = some "00:00:00,000"
    ∧ ("00:00:00,000" : String) ≠ "-00:00:00,000" := by decide

/-- Witness for `timecode_roundtrip` at `-00:00:01,500`. -/
theorem timecode_roundtrip_witness :
    parse_srt_time (mkTimecode true 0 0 1 500) = some (timeValue true 0 0 1 500)
    ∧ format_srt_time (timeValue true 0 0 1 500) = mkTimecode true 0 0 1 500
    ∧ mkTimecode true 0 0 1 500 = "-00:00:01,500"
    ∧ timeValue true 0 0 1 500 = -(3/2 : ℚ) :=
  ⟨(timecode_roundtrip true 0 0 1 500 (by decide) (by decide) (by decide)
      (fun _ => by decide)).1,
   (timecode_roundtrip true 0 0 1 500 (by decide) (by decide) (by decide)
      (fun _ => by decide)).2.1,
   by decide, by decide⟩

-- sanity checks (concrete evaluations of the embedding)
example : parse_srt_time "00:00:01,000" = some 1 := by decide
example : parse_srt_time "-00:00:01,500" = some (-(3/2 : ℚ)) := by decide
example : format_srt_time (-(3/2 : ℚ)) = "-00:00:01,500" := by decide
example : format_srt_time 0 = "00:00:00,000" := by decide
example : parse_srt_time "00:00:99,000" = some 99 := by decide
example : format_srt_time 99 = "00:01:39,000" := by decide
example :
    srt_findall "1\n00:00:01,000 --> 00:00:02,000\nHello\n\n2\n00:00:03,000 --> 00:00:04,500\nWorld\n"
      = [⟨"1", "00:00:01,000", "00:00:02,000", "Hello"⟩,
         ⟨"2", "00:00:03,000", "00:00:04,500", "World"⟩] := by decide
example : srt_findall "" = [] := by decide
example : srt_findall "garbage\n" = [] := by decide
example : pyStrip "  Hi\n\n" = "Hi" := by decide
example : pyReplace "Subtitle {index}" "{index}" "7" = "Subtitle 7" := by decide
example :
    importSRT "1\n00:00:01,000 --> 00:00:02,000\nX\n" 0 1 1 "S" (fun a _ _ => a)
      = .ok ⟨1, 2, 1, [⟨"S", "X", 1, 1, 2⟩]⟩ := by decide
example :
    exportSRT [⟨"TEXT", 1, 5, 5, "X"⟩] 1 0
      = .ok ["1\n", "00:00:05,000 --> 00:00:05,000\n", "X\n\n"] := by decide
example :
    exportSRT [⟨"TEXT", 1, 0, 1, "A"⟩, ⟨"TEXT", 1, 1, 2, "B"⟩] 1 0
      = .ok ["1\n", "00:00:00,000 --> 00:00:01,000\n", "A\n\n",
             "2\n", "00:00:01,000 --> 00:00:02,000\n", "B\n\n"] := by decide
